import Mathlib

/-!
Verification development for the process-execution engine in
`modules/nuclide-commons/process.js`.

The JavaScript source is shallowly embedded: JS strings become `List Char`,
JS numbers that may be `NaN` (results of `parseInt`) become `Option Int`,
nullable option fields become `Option` types, and the reactive pipeline of
`getOutputStream` is modelled as a pure function from a process behaviour
(the chunks the OS delivers on stdout/stderr plus the close event) to the
ordered event list and the terminal outcome of the stream.
-/

/-- JS whitespace test (the characters matched by `\s` that occur in the
inputs handled here: space, tab, newline, carriage return, vertical tab,
form feed). Used by `String.prototype.trim`, `split(/\s+/)` and
`parseInt`. -/
def isJsSpace (c : Char) : Bool :=
  c == ' ' || c == '\t' || c == '\n' || c == '\r' || c == '\x0b' || c == '\x0c'

/-- JS `String.prototype.trim()`: strip whitespace from both ends. -/
def jsTrim (s : List Char) : List Char :=
  ((s.dropWhile isJsSpace).reverse.dropWhile isJsSpace).reverse

/-- Helper for `splitNl`: JS `split(/\n|\r\n/)`. A `\n` always splits; a
`\r` splits only when immediately followed by `\n` (consuming both). -/
def splitNlAux : List Char → List Char → List (List Char)
  | [], cur => [cur.reverse]
  | '\n' :: rest, cur => cur.reverse :: splitNlAux rest []
  | '\r' :: '\n' :: rest, cur => cur.reverse :: splitNlAux rest []
  | c :: rest, cur => splitNlAux rest (c :: cur)

/-- JS `s.split(/\n|\r\n/)` from `parsePsOutput`. -/
def splitNl (s : List Char) : List (List Char) :=
  splitNlAux s []

/-- Helper for `splitWs`: JS `s.split(/\s+/)`. Each maximal whitespace run
is a separator; a leading or trailing run produces an empty field, and the
empty string yields `[""]`, as in JS. The Bool flag is true while inside a
separator run (the field before it has just been emitted). -/
def splitWsAux : Bool → List Char → List Char → List (List Char)
  | false, [], cur => [cur.reverse]
  | true, [], _ => [[]]
  | false, c :: rest, cur =>
    if isJsSpace c then cur.reverse :: splitWsAux true rest []
    else splitWsAux false rest (c :: cur)
  | true, c :: rest, cur =>
    if isJsSpace c then splitWsAux true rest cur
    else splitWsAux false rest [c]

/-- JS `s.split(/\s+/)` from `parsePsOutput`. -/
def splitWs (s : List Char) : List (List Char) :=
  splitWsAux false s []

/-- Decimal digit test for `parseInt(s, 10)`. -/
def isDigitChar (c : Char) : Bool :=
  decide ('0' ≤ c) && decide (c ≤ '9')

/-- Value of a digit string (most significant digit first). -/
def digitsToNat (ds : List Char) : Nat :=
  ds.foldl (fun n c => n * 10 + (c.toNat - '0'.toNat)) 0

/-- Maximal leading digit run of `t`, or `none` if there is none. -/
def parseDigits (t : List Char) : Option Nat :=
  let ds := t.takeWhile isDigitChar
  if ds.isEmpty then none else some (digitsToNat ds)

/-- JS `parseInt(s, 10)`: skip leading whitespace, optional sign, then the
maximal digit prefix; `none` models `NaN` (no digits). Trailing garbage is
ignored, as in JS. -/
def jsParseInt (s : List Char) : Option Int :=
  let t := s.dropWhile isJsSpace
  match t with
  | '-' :: rest => (parseDigits rest).map (fun n => -(n : Int))
  | '+' :: rest => (parseDigits rest).map (fun n => (n : Int))
  | _ => (parseDigits t).map (fun n => (n : Int))

/-- JS `columns.join(' ')`. -/
def joinSpace (cols : List (List Char)) : List Char :=
  (cols.intersperse [' ']).flatten

/-- JS `x || default` for an optional numeric option: `null`/`undefined`
and `0` are falsy, so both fall back to the default. Mirrors
`idx(options, _ => _.maxBuffer) || DEFAULT_MAX_BUFFER` and
`idx(options, _ => _.exitErrorBufferSize) || 2000`. -/
def jsOr (x : Option Nat) (d : Nat) : Nat :=
  match x with
  | none => d
  | some n => if n = 0 then d else n

/-- `ProcessInfo` from process.js: one row of the process table. `pid` and
`parentPid` are `parseInt` results, so `Option Int` with `none` = `NaN`. -/
structure ProcessInfo where
  parentPid : Option Int
  pid : Option Int
  command : String
  commandWithArgs : String
deriving DecidableEq, Repr

/-- JS `Map.get` over a list of key/value insertions (later insertions for
the same key win, as in `new Map(entries)`); key equality is SameValueZero,
which on our `Option Int` encoding (with `none` = `NaN`) is plain
equality. -/
def jsMapGet (entries : List (Option Int × String)) (k : Option Int) : Option String :=
  ((entries.filter (fun e => e.1 == k)).getLast?).map (fun e => e.2)

/-- `parsePsOutput` from process.js (lines 579-619): trim the tabular
output, drop the header line, split each row on whitespace; the first two
columns are `ppid` and `pid`, the remaining columns re-joined are the
command. The optional second table maps pid to the full command line. -/
def parsePsOutput (psOutput : String) (argsOutput : Option String) : List ProcessInfo :=
  let lines := (splitNl (jsTrim psOutput.toList)).drop 1
  let withArgs : List (Option Int × String) :=
    match argsOutput with
    | none => []
    | some a =>
      ((splitNl (jsTrim a.toList)).drop 1).map fun line =>
        let columns := splitWs (jsTrim line)
        (jsParseInt (columns.headD []), String.mk (joinSpace (columns.drop 1)))
  lines.map fun line =>
    let columns := splitWs (jsTrim line)
    let pid := jsParseInt ((columns.drop 1).headD [])
    let command := String.mk (joinSpace (columns.drop 2))
    { parentPid := jsParseInt (columns.headD [])
      pid := pid
      command := command
      commandWithArgs := (jsMapGet withArgs pid).getD command }

/-- The `rootProcessInfo` assignment loop of `getDescendantsOfProcess`
(lines 539-546): the last row whose `pid` strictly equals the requested
pid (strict JS `===`, under which `NaN` equals nothing). -/
def rootOf (processes : List ProcessInfo) (pid : Int) : Option ProcessInfo :=
  processes.foldl (fun acc info => if info.pid == some pid then some info else acc) none

/-- The `pidToChildren` multimap of `getDescendantsOfProcess`: all rows
whose `parentPid` equals the key (insertion order preserved). The
`MultiMap` class itself lives outside `src/`; modelled from the spec:
"a parent→children multimap". -/
def childrenOf (processes : List ProcessInfo) (k : Option Int) : List ProcessInfo :=
  processes.filter (fun info => info.parentPid == k)

/-- The worklist loop of `getDescendantsOfProcess` (lines 550-554): walk
the growing array left to right, appending each element's children at the
end. Presented as the equivalent queue traversal: emit the head, enqueue
its children. `fuel` bounds the number of processed elements; the JS loop
has no bound (it diverges on cyclic tables). -/
def bfsQueue (children : Option Int → List ProcessInfo) :
    Nat → List ProcessInfo → List ProcessInfo
  | 0, _ => []
  | _ + 1, [] => []
  | fuel + 1, info :: rest => info :: bfsQueue children fuel (rest ++ children info.pid)

/-- `getDescendantsOfProcess` from process.js (lines 535-556): the root row
followed by its transitive descendants in breadth-first order. The fuel
`processes.length + 1` suffices for snapshots with distinct pids (every
genuine process table), where each row is enqueued at most once. -/
def getDescendantsOfProcess (processes : List ProcessInfo) (pid : Int) : List ProcessInfo :=
  match rootOf processes pid with
  | none => []
  | some root => bfsQueue (childrenOf processes) (processes.length + 1) [root]

/-- `killUnixProcessTree` from process.js (lines 1180-1188): kill the
descendants starting with those of greatest depth, i.e. in reverse of the
breadth-first order. The result is the ordered list of pids passed to
`killPid`. -/
def killUnixProcessTree (processes : List ProcessInfo) (pid : Int) : List (Option Int) :=
  ((getDescendantsOfProcess processes pid).reverse).map (fun info => info.pid)

/-- A Node system-call error; `code` is the errno name (e.g. `"ESRCH"`). -/
structure SystemCallError where
  code : String
deriving DecidableEq, Repr

/-- `killPid` from process.js (lines 441-449), with the outcome of the
underlying `process.kill` as input (`none` = the signal was delivered,
`some err` = the syscall threw). `ESRCH` (no such process) is swallowed;
every other error is re-raised. -/
def killPid (killResult : Option SystemCallError) : Except SystemCallError Unit :=
  match killResult with
  | none => .ok ()
  | some err => if err.code ≠ "ESRCH" then .error err else .ok ()

/-- `killWindowsProcessTree` from process.js (lines 1168-1178), with the
`child_process.exec` callback's error argument as input. The source calls
`reject` when the error is null and `resolve` when it is non-null. -/
def killWindowsProcessTree (error : Option SystemCallError) :
    Except (Option SystemCallError) Unit :=
  match error with
  | none => .error none
  | some _ => .ok ()

/-- The teardown decision of `createProcessStream` (lines 1133-1138): on
unsubscribe, kill the process unless it was already killed or the spawn
stream already finished (the process exited or errored). -/
def killOnTeardown (wasKilled finished : Bool) : Bool :=
  !wasKilled && !finished

/-- `ProcessExitMessage` from process.js: exactly one of `exitCode` and
`signal` is non-null for real exits. -/
structure ProcessExitMessage where
  exitCode : Option Int
  signal : Option String
deriving DecidableEq, Repr

/-- `isExitErrorDefault` from process.js (lines 1190-1192):
`exit.exitCode !== 0`. A null exit code (killed by signal) is unequal to
`0` under strict JS inequality. -/
def isExitErrorDefault (exit : ProcessExitMessage) : Bool :=
  !(exit.exitCode == some 0)

/-- `isRealExit` from process.js (lines 1142-1145): a SIGUSR1 close is an
IPC handshake, not a genuine exit. -/
def isRealExit (event : ProcessExitMessage) : Bool :=
  !(event.signal == some "SIGUSR1")

/-- `MaxBufferExceededError` from process.js (lines 856-861). -/
structure MaxBufferExceededError where
  streamName : String
deriving DecidableEq, Repr

/-- `ProcessExitError` from process.js (lines 796-832): exit code, signal,
captured (possibly truncated) stderr, and — only for the accumulating
wrappers — the full stdout. -/
structure ProcessExitError where
  exitCode : Option Int
  signal : Option String
  stderr : List Char
  stdout : Option (List Char)
deriving DecidableEq, Repr

/-- The errors a process stream can raise (the kinds the claims exercise). -/
inductive ProcessError where
  | exitError (e : ProcessExitError)
  | maxBufferExceeded (e : MaxBufferExceededError)
deriving DecidableEq, Repr

/-- `ProcessMessage` from process.js: the tagged stdout/stderr/exit
events. -/
inductive ProcessMessage where
  | stdout (data : List Char)
  | stderr (data : List Char)
  | exit (exitCode : Option Int) (signal : Option String)
deriving DecidableEq, Repr

/-- How a process stream ends: completion after the exit event, an error,
or never (the close event was filtered out as not a real exit). -/
inductive StreamOutcome where
  | completed
  | errored (e : ProcessError)
  | noExit
deriving DecidableEq, Repr

/-- `GetOutputStreamOptions` from process.js (lines 766-771). -/
structure GetOutputStreamOptions where
  splitByLines : Option Bool := none
  maxBuffer : Option Nat := none
  exitErrorBufferSize : Option Nat := none
  isExitError : Option (ProcessExitMessage → Bool) := none

/-- The observable behaviour of one spawned OS process: the raw chunks the
engine reads from its stdout and stderr pipes, and its close event. -/
structure ProcBehavior where
  stdoutChunks : List (List Char)
  stderrChunks : List (List Char)
  exit : ProcessExitMessage

/-- The recursion inside `limitBufferSize` (lines 1206-1213): running
total of bytes seen; a chunk that pushes the total past `maxBuffer` throws
(before being emitted). Returns the emitted prefix and the error, if
any. -/
def limitBufferScan (maxBuffer : Nat) (streamName : String) :
    Nat → List (List Char) → List (List Char) × Option MaxBufferExceededError
  | _, [] => ([], none)
  | totalSize, data :: rest =>
    if maxBuffer < totalSize + data.length then
      ([], some ⟨streamName⟩)
    else
      let r := limitBufferScan maxBuffer streamName (totalSize + data.length) rest
      (data :: r.1, r.2)

/-- `limitBufferSize` from process.js (lines 1198-1215): with a null
`maxBuffer` the stream is returned unchanged (no cap at all); otherwise
the cumulative byte count is checked against the cap. -/
def limitBufferSize (maxBuffer : Option Nat) (streamName : String)
    (chunks : List (List Char)) : List (List Char) × Option MaxBufferExceededError :=
  match maxBuffer with
  | none => (chunks, none)
  | some b => limitBufferScan b streamName 0 chunks

/-- Total byte count of a chunk list. -/
def totalLen (chunks : List (List Char)) : Nat :=
  (chunks.map List.length).sum

/-- Helper for `splitStream`: cut after every `'\n'`, keeping the newline
at the end of each emitted line, and emit any final unterminated line at
completion. -/
def splitAfterNlAux : List Char → List Char → List (List Char)
  | [], cur => if cur.isEmpty then [] else [cur.reverse]
  | c :: rest, cur =>
    if c = '\n' then ('\n' :: cur).reverse :: splitAfterNlAux rest []
    else splitAfterNlAux rest (c :: cur)

/-- Modelled from the spec: `splitStream` (module `observable`, outside
`src/`) re-chunks a string stream into line-delimited chunks — each chunk
is one line retaining its trailing newline, with the final partial line
emitted when the stream completes. -/
def splitStream (chunks : List (List Char)) : List (List Char) :=
  splitAfterNlAux chunks.flatten []

/-- The `accumulatedStderr` scan of `getOutputStream` (lines 324-332)
combined with its `takeWhileInclusive(acc => acc.length < cap)`: starting
from `''`, each stderr chunk is appended and the result truncated with
`slice(0, exitErrorBufferSize)`; once the accumulator reaches the cap no
further chunk is consumed. The result is the accumulator's latest value,
as sampled by `withLatestFrom` at close time. -/
def accumulatedStderr (cap : Nat) : List (List Char) → List Char → List Char
  | [], acc => acc
  | data :: rest, acc =>
    if acc.length < cap then accumulatedStderr cap rest ((acc ++ data).take cap)
    else acc

/-- The resolution of `exitErrorBufferSize` in `getOutputStream` (line
313): `idx(options, _ => _.exitErrorBufferSize) || 2000`. -/
def resolveExitErrorBufferSize (options : GetOutputStreamOptions) : Nat :=
  jsOr options.exitErrorBufferSize 2000

/-- `getOutputStream` from process.js (lines 304-375), sequentialized:
stdout and stderr chunks flow through `limitBufferSize` (with the
caller's `maxBuffer`, no default) and the line chunker; the close event is
filtered by `isRealExit` and classified by the `isExitError` predicate
(default `isExitErrorDefault`) against the accumulated-stderr context.
The event list is the linearization stdout-then-stderr; the outcome is
the stream's terminal event. -/
def getOutputStream (options : GetOutputStreamOptions) (b : ProcBehavior) :
    List ProcessMessage × StreamOutcome :=
  let chunk : List (List Char) → List (List Char) :=
    fun s => if options.splitByLines == some false then s else splitStream s
  let maxBuffer := options.maxBuffer
  let isExitError := options.isExitError.getD isExitErrorDefault
  let exitErrorBufferSize := resolveExitErrorBufferSize options
  let stdoutLim := limitBufferSize maxBuffer "stdout" b.stdoutChunks
  let stderrLim := limitBufferSize maxBuffer "stderr" b.stderrChunks
  let stdoutEvents := (chunk stdoutLim.1).map ProcessMessage.stdout
  let stderrData := chunk stderrLim.1
  let stderrEvents := stderrData.map ProcessMessage.stderr
  let accStderr := accumulatedStderr exitErrorBufferSize stderrData []
  match stdoutLim.2 with
  | some e => (stdoutEvents ++ stderrEvents, .errored (.maxBufferExceeded e))
  | none =>
    match stderrLim.2 with
    | some e => (stdoutEvents ++ stderrEvents, .errored (.maxBufferExceeded e))
    | none =>
      if isRealExit b.exit then
        if isExitError b.exit then
          (stdoutEvents ++ stderrEvents,
            .errored (.exitError ⟨b.exit.exitCode, b.exit.signal, accStderr, none⟩))
        else
          (stdoutEvents ++ stderrEvents ++ [.exit b.exit.exitCode b.exit.signal],
            .completed)
      else
        (stdoutEvents ++ stderrEvents, .noExit)

/-- `DEFAULT_MAX_BUFFER` from process.js (line 881). -/
def DEFAULT_MAX_BUFFER : Nat := 100 * 1024 * 1024

/-- The `maxBuffer` resolution of `runCommandDetailed` (line 192):
`idx(options, _ => _.maxBuffer) || DEFAULT_MAX_BUFFER`. -/
def runCommandDetailedMaxBuffer (options : GetOutputStreamOptions) : Nat :=
  jsOr options.maxBuffer DEFAULT_MAX_BUFFER

/-- `DetailedProcessResult` from process.js (lines 172-176). -/
structure DetailedProcessResult where
  stdout : List Char
  stderr : List Char
  exitCode : Option Int
deriving DecidableEq, Repr

/-- One step of the `reduce` in `runCommandDetailed` (lines 201-225):
concatenate stdout and stderr data, record the exit code. -/
def reduceStep (acc : DetailedProcessResult) : ProcessMessage → DetailedProcessResult
  | .stdout data => { acc with stdout := acc.stdout ++ data }
  | .stderr data => { acc with stderr := acc.stderr ++ data }
  | .exit exitCode _ => { acc with exitCode := exitCode }

/-- `runCommandDetailed` from process.js (lines 186-226): observe the
process with the resolved `maxBuffer`, catch a `ProcessExitError` so it
becomes the stream's last event, reduce the events into accumulated
stdout/stderr/exitCode, and on the caught exit error re-raise it
augmented with the accumulated stderr and full stdout. `none` models a
stream that never completes. -/
def runCommandDetailed (options : GetOutputStreamOptions) (b : ProcBehavior) :
    Option (Except ProcessError DetailedProcessResult) :=
  let options' := { options with maxBuffer := some (runCommandDetailedMaxBuffer options) }
  let r := getOutputStream options' b
  let acc := r.1.foldl reduceStep ⟨[], [], none⟩
  match r.2 with
  | .completed => some (.ok acc)
  | .noExit => none
  | .errored (.exitError e) =>
    some (.error (.exitError ⟨e.exitCode, e.signal, acc.stderr, some acc.stdout⟩))
  | .errored e => some (.error e)

/-- `runCommand` from process.js (lines 127-134): `runCommandDetailed`
projected to the accumulated stdout. -/
def runCommand (options : GetOutputStreamOptions) (b : ProcBehavior) :
    Option (Except ProcessError (List Char)) :=
  (runCommandDetailed options b).map (fun r => r.map DetailedProcessResult.stdout)

/-- Follows the spec's words (for comparison with the source's
accumulator): the last `n` bytes of `s`. -/
def specLastBytes (n : Nat) (s : List Char) : List Char :=
  s.drop (s.length - n)

/-- Extract the exit code carried by an exit-error outcome. -/
def outcomeExitErrorCode : StreamOutcome → Option (Option Int)
  | .errored (.exitError e) => some e.exitCode
  | _ => none

/-! ## Helper lemmas -/

/-- Truncating before appending does not change a truncation: taking `n`
of `l.take n ++ m` equals taking `n` of `l ++ m`. -/
theorem take_append_take {α : Type} : ∀ (n : Nat) (l m : List α),
    (l.take n ++ m).take n = (l ++ m).take n := by
  intro n l
  induction l generalizing n with
  | nil => intro m; simp
  | cons a l ih =>
    intro m
    cases n with
    | zero => simp
    | succ n => simp [List.take_succ_cons, ih n]

/-- The stderr accumulator computes the first `cap` bytes: starting from
any accumulator not yet past the cap, the final value is the `cap`-byte
truncation of the accumulator followed by all chunk data. -/
theorem accumulatedStderr_eq_take (cap : Nat) :
    ∀ (chunks : List (List Char)) (acc : List Char), acc.length ≤ cap →
      accumulatedStderr cap chunks acc = (acc ++ chunks.flatten).take cap := by
  intro chunks
  induction chunks with
  | nil =>
    intro acc h
    simp [accumulatedStderr, List.take_of_length_le h]
  | cons data rest ih =>
    intro acc h
    rw [accumulatedStderr]
    by_cases hlt : acc.length < cap
    · rw [if_pos hlt, ih _ (List.length_take_le cap (acc ++ data)),
        take_append_take, List.flatten_cons, ← List.append_assoc]
    · rw [if_neg hlt]
      have hcap : acc.length = cap := Nat.le_antisymm h (Nat.not_lt.mp hlt)
      rw [← hcap, List.take_left]

/-- Flattening the output of the line splitter returns the input bytes. -/
theorem splitAfterNlAux_flatten : ∀ (l cur : List Char),
    (splitAfterNlAux l cur).flatten = cur.reverse ++ l := by
  intro l
  induction l with
  | nil =>
    intro cur
    by_cases h : cur.isEmpty
    · rw [splitAfterNlAux, if_pos h]
      simp [List.isEmpty_iff.mp h]
    · rw [splitAfterNlAux, if_neg h]
      simp
  | cons c rest ih =>
    intro cur
    rw [splitAfterNlAux]
    by_cases h : c = '\n'
    · rw [if_pos h, h]
      simp [ih]
    · rw [if_neg h]
      simp [ih]

/-- `splitStream` re-chunks without changing the byte sequence. -/
theorem splitStream_flatten (chunks : List (List Char)) :
    (splitStream chunks).flatten = chunks.flatten := by
  simp [splitStream, splitAfterNlAux_flatten]

/-- The buffer limiter's error outcome: starting from a running total not
yet past the cap, it throws exactly when the total plus the remaining
bytes exceeds the cap. -/
theorem limitBufferScan_snd (b : Nat) (name : String) :
    ∀ (chunks : List (List Char)) (t : Nat), t ≤ b →
      (limitBufferScan b name t chunks).2 =
        (if b < t + totalLen chunks then some ⟨name⟩ else none) := by
  intro chunks
  induction chunks with
  | nil =>
    intro t ht
    rw [limitBufferScan, if_neg (by simp [totalLen]; omega)]
  | cons data rest ih =>
    intro t ht
    rw [limitBufferScan]
    by_cases hgt : b < t + data.length
    · rw [if_pos hgt, if_pos (by simp [totalLen]; omega)]
    · rw [if_neg hgt]
      have := ih (t + data.length) (Nat.not_lt.mp hgt)
      simp only [this, totalLen, List.map_cons, List.sum_cons, Nat.add_assoc]

/-- When the buffer limiter raises no error, it passes every chunk
through unchanged. -/
theorem limitBufferScan_fst_of_none (b : Nat) (name : String) :
    ∀ (chunks : List (List Char)) (t : Nat),
      (limitBufferScan b name t chunks).2 = none →
      (limitBufferScan b name t chunks).1 = chunks := by
  intro chunks
  induction chunks with
  | nil => intro t _; rfl
  | cons data rest ih =>
    intro t h
    rw [limitBufferScan] at h ⊢
    by_cases hgt : b < t + data.length
    · rw [if_pos hgt] at h
      exact absurd h (by simp)
    · rw [if_neg hgt] at h ⊢
      simp only at h ⊢
      rw [ih _ h]

/-- `limitBufferSize` without an error passes the chunks through. -/
theorem limitBufferSize_fst_of_none (mb : Option Nat) (name : String)
    (chunks : List (List Char))
    (h : (limitBufferSize mb name chunks).2 = none) :
    (limitBufferSize mb name chunks).1 = chunks := by
  cases mb with
  | none => rfl
  | some b => exact limitBufferScan_fst_of_none b name chunks 0 h

/-- The line chunker of `getOutputStream` preserves the byte sequence in
both modes (raw and line-split). -/
theorem chunk_flatten (options : GetOutputStreamOptions) (s : List (List Char)) :
    (if options.splitByLines == some false then s else splitStream s).flatten
      = s.flatten := by
  by_cases h : options.splitByLines == some false
  · rw [if_pos h]
  · rw [if_neg h, splitStream_flatten]

/-! ## Claim theorems -/

/-- C1 (counterexample): the stderr context kept by the accumulator of
`getOutputStream` is not the last `N = 2000` bytes of the process's
stderr. With 2000 bytes of `'a'` followed by `'b'`, the accumulator holds
2000 `'a'`s, while the last 2000 bytes end in `'b'`. -/
theorem C1_last_bytes_counterexample :
    ¬ (accumulatedStderr 2000 [List.replicate 2000 'a', ['b']] []
        = specLastBytes 2000 ([List.replicate 2000 'a', ['b']].flatten)) := by
  intro h
  have hacc : accumulatedStderr 2000 [List.replicate 2000 'a', ['b']] []
      = List.replicate 2000 'a' := by
    rw [accumulatedStderr, if_pos (by norm_num)]
    rw [List.nil_append, List.take_replicate, min_self]
    rw [accumulatedStderr, if_neg (by rw [List.length_replicate]; omega)]
  have hflat : ([List.replicate 2000 'a', ['b']] : List (List Char)).flatten
      = List.replicate 2000 'a' ++ ['b'] := by
    rw [List.flatten_cons, List.flatten_cons, List.flatten_nil, List.append_nil]
  have hlast : specLastBytes 2000 ([List.replicate 2000 'a', ['b']].flatten)
      = List.replicate 1999 'a' ++ ['b'] := by
    rw [hflat, specLastBytes, List.length_append, List.length_replicate]
    rw [show (2000 + List.length ['b'] - 2000 : Nat) = 1 from rfl]
    rw [List.drop_append_of_le_length (by rw [List.length_replicate]; omega)]
    rw [List.drop_replicate]
  rw [hacc, hlast] at h
  rw [show (2000 : Nat) = 1999 + 1 from rfl, List.replicate_succ'] at h
  have hl := congrArg List.getLast? h
  rw [List.getLast?_concat, List.getLast?_concat] at hl
  exact absurd (Option.some.inj hl) (by decide)

/-- C1 (amended): the stderr context attached to an exit error is the
first `N` bytes of the process's stderr (`N = exitErrorBufferSize`,
default 2000), not the full history, and accumulation stops once the cap
is reached: when neither stream overflows `maxBuffer` and the close event
is a real exit that the predicate classifies as an error, the outcome is
an exit error whose captured stderr is the `N`-byte prefix of the full
stderr byte sequence; and once the accumulator has reached the cap a
further chunk leaves it unchanged. -/
theorem C1_stderr_context_first_bytes (options : GetOutputStreamOptions)
    (b : ProcBehavior)
    (h1 : (limitBufferSize options.maxBuffer "stdout" b.stdoutChunks).2 = none)
    (h2 : (limitBufferSize options.maxBuffer "stderr" b.stderrChunks).2 = none)
    (h3 : isRealExit b.exit = true)
    (h4 : (options.isExitError.getD isExitErrorDefault) b.exit = true) :
    (getOutputStream options b).2 = .errored (.exitError
      ⟨b.exit.exitCode, b.exit.signal,
        b.stderrChunks.flatten.take (resolveExitErrorBufferSize options), none⟩) ∧
    (∀ data rest acc, resolveExitErrorBufferSize options ≤ acc.length →
      accumulatedStderr (resolveExitErrorBufferSize options) (data :: rest) acc = acc) := by
  constructor
  · have hfst := limitBufferSize_fst_of_none options.maxBuffer "stderr" b.stderrChunks h2
    rw [getOutputStream]
    simp only [h1, h2, hfst, h3, h4, if_true]
    rw [accumulatedStderr_eq_take _ _ [] (Nat.zero_le _)]
    rw [List.nil_append, chunk_flatten]
  · intro data rest acc h
    rw [accumulatedStderr, if_neg (Nat.not_lt.mpr h)]

/-- C1 witness: the amended theorem applied to a concrete process whose
stderr is `"abc"` with `exitErrorBufferSize = 2`: the attached context is
`"ab"`, and a capped accumulator ignores further chunks. -/
theorem C1_stderr_context_first_bytes_witness :
    (getOutputStream ⟨none, none, some 2, none⟩
        ⟨[], [['a', 'b', 'c']], ⟨some 1, none⟩⟩).2 = .errored (.exitError
      ⟨some 1, none, ['a', 'b'], none⟩) ∧
    accumulatedStderr 2 [['z']] ['x', 'y'] = ['x', 'y'] := by
  have h := C1_stderr_context_first_bytes ⟨none, none, some 2, none⟩
    ⟨[], [['a', 'b', 'c']], ⟨some 1, none⟩⟩ rfl rfl rfl rfl
  exact ⟨h.1, h.2 ['z'] [] ['x', 'y'] (by decide)⟩

/-- C8: a termination attempt against a pid that no longer exists is not
an error — `killPid` swallows `ESRCH` and returns normally, while every
other kill failure is re-raised, and a successful kill returns normally. -/
theorem C8_killPid_esrch_swallowed :
    killPid none = .ok () ∧
    (∀ e : SystemCallError, e.code = "ESRCH" → killPid (some e) = .ok ()) ∧
    (∀ e : SystemCallError, e.code ≠ "ESRCH" → killPid (some e) = .error e) := by
  refine ⟨rfl, ?_, ?_⟩ <;> intro e h <;> simp [killPid, h]

/-- C8 witness: `ESRCH` is swallowed and `EPERM` is re-raised. -/
theorem C8_killPid_esrch_swallowed_witness :
    killPid (some ⟨"ESRCH"⟩) = .ok () ∧ killPid (some ⟨"EPERM"⟩) = .error ⟨"EPERM"⟩ :=
  ⟨C8_killPid_esrch_swallowed.2.1 ⟨"ESRCH"⟩ rfl,
    C8_killPid_esrch_swallowed.2.2 ⟨"EPERM"⟩ (by decide)⟩

/-- C9: the Windows tree-kill helper inverts its error-callback branches —
the promise resolves exactly when the platform kill command invokes its
callback with a non-null error, and rejects when the error is null. -/
theorem C9_windows_tree_kill_inverted :
    (∀ e : SystemCallError, killWindowsProcessTree (some e) = .ok ()) ∧
    killWindowsProcessTree none = .error none :=
  ⟨fun _ => rfl, rfl⟩

/-- C9 witness: a concrete non-null error resolves. -/
theorem C9_windows_tree_kill_inverted_witness :
    killWindowsProcessTree (some ⟨"boom"⟩) = .ok () :=
  C9_windows_tree_kill_inverted.1 ⟨"boom"⟩

/-- C10: a size option passed as `0` falls back to the built-in default as
if it were absent: `exitErrorBufferSize = 0` resolves to the 2000-byte
cap (so a concrete error exit attaches the stderr prefix rather than
nothing), and `maxBuffer = 0` in `runCommandDetailed` resolves to the
100 MiB default. -/
theorem C10_falsy_options_defaults :
    resolveExitErrorBufferSize ⟨none, none, some 0, none⟩ = 2000 ∧
    resolveExitErrorBufferSize ⟨none, none, some 0, none⟩
      = resolveExitErrorBufferSize ⟨none, none, none, none⟩ ∧
    runCommandDetailedMaxBuffer ⟨none, some 0, none, none⟩ = 100 * 1024 * 1024 ∧
    runCommandDetailedMaxBuffer ⟨none, some 0, none, none⟩
      = runCommandDetailedMaxBuffer ⟨none, none, none, none⟩ ∧
    (getOutputStream ⟨none, none, some 0, none⟩
        ⟨[], [['a', 'b']], ⟨some 1, none⟩⟩).2
      = .errored (.exitError ⟨some 1, none, ['a', 'b'], none⟩) :=
  ⟨rfl, rfl, rfl, rfl, by decide⟩

/-- C5 (counterexample): the 100 MiB default does not apply to
`observeProcess`/`getOutputStream` — with no `maxBuffer` supplied, a
stdout chunk one byte past the default cap raises no buffer error and the
stream completes normally. -/
theorem C5_observeProcess_no_default_counterexample :
    (getOutputStream ⟨some false, none, none, none⟩
        ⟨[List.replicate (DEFAULT_MAX_BUFFER + 1) 'a'], [], ⟨some 0, none⟩⟩).2
      = .completed ∧
    totalLen [List.replicate (DEFAULT_MAX_BUFFER + 1) 'a'] = DEFAULT_MAX_BUFFER + 1 := by
  constructor
  · rfl
  · rw [totalLen, List.map_cons, List.map_nil, List.sum_cons, List.sum_nil,
      List.length_replicate, Nat.add_zero]

/-- C5 (amended): when `maxBuffer` is not supplied, the 100 MiB default
(100 * 1024 * 1024 bytes) applies to `runCommandDetailed` (and hence
`runCommand`): the resolved cap is the default, and a stream cumulatively
producing more than the resolved cap raises the buffer error. The
streaming surface (`observeProcess`/`getOutputStream`) applies no default:
with `maxBuffer` absent its limiter never errors. -/
theorem C5_default_max_buffer (options : GetOutputStreamOptions)
    (h : options.maxBuffer = none) :
    runCommandDetailedMaxBuffer options = DEFAULT_MAX_BUFFER ∧
    (∀ (name : String) (chunks : List (List Char)),
      DEFAULT_MAX_BUFFER + 1 ≤ totalLen chunks →
      (limitBufferSize (some (runCommandDetailedMaxBuffer options)) name chunks).2
        = some ⟨name⟩) ∧
    (∀ (name : String) (chunks : List (List Char)),
      (limitBufferSize options.maxBuffer name chunks).2 = none) := by
  have hres : runCommandDetailedMaxBuffer options = DEFAULT_MAX_BUFFER := by
    rw [runCommandDetailedMaxBuffer, h, jsOr]
  refine ⟨hres, ?_, ?_⟩
  · intro name chunks hlen
    rw [hres, limitBufferSize, limitBufferScan_snd _ _ _ 0 (Nat.zero_le _),
      if_pos (by omega)]
  · intro name chunks
    rw [h, limitBufferSize]

/-- C5 witness: with no `maxBuffer`, `runCommandDetailed` resolves the
default cap; a 100 MiB + 1 stdout overflows that cap; and the streaming
limiter without a cap raises nothing on the same input. -/
theorem C5_default_max_buffer_witness :
    runCommandDetailedMaxBuffer ⟨none, none, none, none⟩ = DEFAULT_MAX_BUFFER ∧
    (limitBufferSize (some (runCommandDetailedMaxBuffer ⟨none, none, none, none⟩))
        "stdout" [List.replicate (DEFAULT_MAX_BUFFER + 1) 'a']).2 = some ⟨"stdout"⟩ ∧
    (limitBufferSize ((⟨none, none, none, none⟩ : GetOutputStreamOptions).maxBuffer)
        "stdout" [List.replicate (DEFAULT_MAX_BUFFER + 1) 'a']).2 = none :=
  ⟨(C5_default_max_buffer ⟨none, none, none, none⟩ rfl).1,
    (C5_default_max_buffer ⟨none, none, none, none⟩ rfl).2.1 "stdout" _
      (by rw [totalLen, List.map_cons, List.map_nil, List.sum_cons, List.sum_nil,
        List.length_replicate, Nat.add_zero]),
    (C5_default_max_buffer ⟨none, none, none, none⟩ rfl).2.2 "stdout" _⟩

/-- C6: for a stream bounded by `maxBuffer = B`, cumulatively producing at
least `B + 1` bytes raises a `MaxBufferExceededError` naming that stream,
producing at most `B` bytes raises none, and on teardown before the spawn
stream finished (as happens when the output stream errors while the
process still runs) the process is killed. -/
theorem C6_max_buffer_exceeded (B : Nat) (name : String) (chunks : List (List Char)) :
    (B + 1 ≤ totalLen chunks →
      (limitBufferSize (some B) name chunks).2 = some ⟨name⟩) ∧
    (totalLen chunks ≤ B →
      (limitBufferSize (some B) name chunks).2 = none) ∧
    killOnTeardown false false = true := by
  refine ⟨?_, ?_, rfl⟩
  · intro h
    rw [limitBufferSize, limitBufferScan_snd _ _ _ 0 (Nat.zero_le _), if_pos (by omega)]
  · intro h
    rw [limitBufferSize, limitBufferScan_snd _ _ _ 0 (Nat.zero_le _), if_neg (by omega)]

/-- C6 witness: with `B = 2`, three bytes on stderr raise the error naming
`"stderr"`, and two bytes raise none. -/
theorem C6_max_buffer_exceeded_witness :
    (limitBufferSize (some 2) "stderr" [['a', 'b', 'c']]).2 = some ⟨"stderr"⟩ ∧
    (limitBufferSize (some 2) "stderr" [['a', 'b']]).2 = none :=
  ⟨(C6_max_buffer_exceeded 2 "stderr" [['a', 'b', 'c']]).1 (by decide),
    (C6_max_buffer_exceeded 2 "stderr" [['a', 'b']]).2.1 (by decide)⟩

/-- C2: under the default `isExitError` predicate, when neither stream
overflows, the terminal classification of a process that exits with code
`c` fails exactly when `c ≠ 0`: the stream completes iff `c = 0`, and for
`c ≠ 0` it raises an exit error whose `exitCode` is the process's actual
exit code `c`. -/
theorem C2_default_exit_classification (options : GetOutputStreamOptions)
    (b : ProcBehavior) (c : Int)
    (hdef : options.isExitError = none)
    (hexit : b.exit = ⟨some c, none⟩)
    (h1 : (limitBufferSize options.maxBuffer "stdout" b.stdoutChunks).2 = none)
    (h2 : (limitBufferSize options.maxBuffer "stderr" b.stderrChunks).2 = none) :
    ((getOutputStream options b).2 = .completed ↔ c = 0) ∧
    (c ≠ 0 → outcomeExitErrorCode (getOutputStream options b).2 = some (some c)) := by
  rw [getOutputStream]
  simp only [h1, h2, hdef, hexit, Option.getD_none]
  by_cases hc : c = 0
  · subst hc
    simp [isRealExit, isExitErrorDefault]
  · constructor
    · simp only [isRealExit, isExitErrorDefault]
      rw [if_pos (by decide), if_pos (by simp [hc])]
      simp [hc]
    · intro _
      simp only [isRealExit, isExitErrorDefault]
      rw [if_pos (by decide), if_pos (by simp [hc])]
      rfl

/-- C2 witness: exit code 2 under the defaults errors with exit code 2,
and does not complete. -/
theorem C2_default_exit_classification_witness :
    ((getOutputStream ⟨none, none, none, none⟩ ⟨[], [], ⟨some 2, none⟩⟩).2
        = .completed ↔ (2 : Int) = 0) ∧
    ((2 : Int) ≠ 0 → outcomeExitErrorCode
      (getOutputStream ⟨none, none, none, none⟩ ⟨[], [], ⟨some 2, none⟩⟩).2
        = some (some 2)) :=
  C2_default_exit_classification ⟨none, none, none, none⟩
    ⟨[], [], ⟨some 2, none⟩⟩ 2 rfl rfl rfl rfl

/-- C7: `runCommandDetailed` catches the would-be exit error and re-raises
it augmented with the full accumulated output: a command producing
`"out\n"` on stdout, `"err\n"` on stderr, and exit code 1 yields an exit
error with `stdout = "out\n"` and `stderr = "err\n"` (which contains
`"err\n"`). -/
theorem C7_runCommandDetailed_augments_exit_error :
    runCommandDetailed ⟨none, none, none, none⟩
        ⟨["out\n".toList], ["err\n".toList], ⟨some 1, none⟩⟩
      = some (.error (.exitError ⟨some 1, none, "err\n".toList, some "out\n".toList⟩)) := by
  rfl

/-- A fold step of `rootOf` only ever installs rows of the table. -/
theorem rootOf_aux (pid : Int) :
    ∀ (processes : List ProcessInfo) (acc : Option ProcessInfo) (root : ProcessInfo),
      processes.foldl
        (fun acc info => if info.pid == some pid then some info else acc) acc
        = some root →
      root ∈ processes ∨ acc = some root := by
  intro processes
  induction processes with
  | nil => intro acc root h; exact Or.inr h
  | cons p ps ih =>
    intro acc root h
    rw [List.foldl_cons] at h
    rcases ih _ root h with hmem | hacc
    · exact Or.inl (List.mem_cons_of_mem _ hmem)
    · by_cases hp : p.pid == some pid
      · rw [if_pos hp] at hacc
        exact Or.inl (Option.some.inj hacc ▸ List.mem_cons_self p ps)
      · rw [if_neg hp] at hacc
        exact Or.inr hacc

/-- The root row found by `rootOf` is a row of the table. -/
theorem rootOf_mem (processes : List ProcessInfo) (pid : Int) (root : ProcessInfo)
    (h : rootOf processes pid = some root) : root ∈ processes := by
  rcases rootOf_aux pid processes none root h with hmem | hacc
  · exact hmem
  · exact absurd hacc (by simp)

/-- Children returned by the multimap are rows of the table. -/
theorem childrenOf_mem {processes : List ProcessInfo} {k : Option Int}
    {c : ProcessInfo} (h : c ∈ childrenOf processes k) : c ∈ processes :=
  (List.mem_filter.mp h).1

/-- Every element emitted by the breadth-first walk has depth at least the
smallest depth in the queue, provided children are one level deeper than
their parents. -/
theorem bfsQueue_lowerBound (processes : List ProcessInfo)
    (depth : ProcessInfo → Nat)
    (hC : ∀ x ∈ processes, ∀ c ∈ childrenOf processes x.pid, depth c = depth x + 1)
    (d0 : Nat) :
    ∀ (fuel : Nat) (q : List ProcessInfo),
      (∀ y ∈ q, y ∈ processes ∧ d0 ≤ depth y) →
      ∀ z ∈ bfsQueue (childrenOf processes) fuel q, d0 ≤ depth z := by
  intro fuel
  induction fuel with
  | zero => intro q hq z hz; simp [bfsQueue] at hz
  | succ fuel ih =>
    intro q hq z hz
    cases q with
    | nil => simp [bfsQueue] at hz
    | cons x rest =>
      rw [bfsQueue] at hz
      rcases List.mem_cons.mp hz with rfl | hz'
      · exact (hq z (List.mem_cons_self _ _)).2
      · refine ih (rest ++ childrenOf processes x.pid) ?_ z hz'
        intro y hy
        rcases List.mem_append.mp hy with hy | hy
        · exact hq y (List.mem_cons_of_mem _ hy)
        · have hx := hq x (List.mem_cons_self _ _)
          have hdy := hC x hx.1 y hy
          exact ⟨childrenOf_mem hy, by omega⟩

/-- The emission order of the breadth-first walk is sorted by
non-decreasing depth, for any queue consisting of a depth-`d` block
followed by a depth-`d + 1` block. -/
theorem bfsQueue_chain (processes : List ProcessInfo) (depth : ProcessInfo → Nat)
    (hC : ∀ x ∈ processes, ∀ c ∈ childrenOf processes x.pid, depth c = depth x + 1) :
    ∀ (fuel d : Nat) (as bs : List ProcessInfo),
      (∀ a ∈ as, a ∈ processes ∧ depth a = d) →
      (∀ b ∈ bs, b ∈ processes ∧ depth b = d + 1) →
      List.Chain' (fun u v : Nat => u ≤ v)
        ((bfsQueue (childrenOf processes) fuel (as ++ bs)).map depth) := by
  intro fuel
  induction fuel with
  | zero => intro d as bs _ _; simp [bfsQueue]
  | succ fuel ih =>
    intro d as bs has hbs
    cases as with
    | nil =>
      cases bs with
      | nil => simp [bfsQueue]
      | cons x bs' =>
        rw [List.nil_append, bfsQueue, List.map_cons, List.chain'_cons']
        have hx := hbs x (List.mem_cons_self _ _)
        have hqbound : ∀ y ∈ bs' ++ childrenOf processes x.pid,
            y ∈ processes ∧ d + 1 ≤ depth y := by
          intro y hy
          rcases List.mem_append.mp hy with hy | hy
          · have := hbs y (List.mem_cons_of_mem _ hy)
            exact ⟨this.1, this.2.ge⟩
          · have hdy := hC x hx.1 y hy
            exact ⟨childrenOf_mem hy, by omega⟩
        constructor
        · intro y hy
          rw [List.head?_map] at hy
          cases hT : (bfsQueue (childrenOf processes) fuel
              (bs' ++ childrenOf processes x.pid)).head? with
          | none => rw [hT] at hy; simp at hy
          | some z =>
            rw [hT] at hy
            simp only [Option.map_some', Option.mem_def, Option.some.injEq] at hy
            have hzmem : z ∈ bfsQueue (childrenOf processes) fuel
                (bs' ++ childrenOf processes x.pid) :=
              List.mem_of_mem_head? (by rw [hT]; rfl)
            have := bfsQueue_lowerBound processes depth hC (d + 1) fuel _ hqbound z hzmem
            have hx2 := hx.2
            omega
        · have hbs' : ∀ b ∈ bs', b ∈ processes ∧ depth b = d + 1 :=
            fun b hb => hbs b (List.mem_cons_of_mem _ hb)
          have hch : ∀ c ∈ childrenOf processes x.pid,
              c ∈ processes ∧ depth c = (d + 1) + 1 := by
            intro c hc
            have := hC x hx.1 c hc
            exact ⟨childrenOf_mem hc, by omega⟩
          exact ih (d + 1) bs' (childrenOf processes x.pid) hbs' hch
    | cons a as' =>
      rw [List.cons_append, bfsQueue, List.map_cons, List.chain'_cons']
      have ha := has a (List.mem_cons_self _ _)
      have hqbound : ∀ y ∈ (as' ++ bs) ++ childrenOf processes a.pid,
          y ∈ processes ∧ d ≤ depth y := by
        intro y hy
        rcases List.mem_append.mp hy with hy | hy
        · rcases List.mem_append.mp hy with hy | hy
          · have := has y (List.mem_cons_of_mem _ hy)
            exact ⟨this.1, this.2.ge⟩
          · have := hbs y hy
            exact ⟨this.1, by omega⟩
        · have hdy := hC a ha.1 y hy
          exact ⟨childrenOf_mem hy, by omega⟩
      constructor
      · intro y hy
        rw [List.head?_map] at hy
        cases hT : (bfsQueue (childrenOf processes) fuel
            ((as' ++ bs) ++ childrenOf processes a.pid)).head? with
        | none => rw [hT] at hy; simp at hy
        | some z =>
          rw [hT] at hy
          simp only [Option.map_some', Option.mem_def, Option.some.injEq] at hy
          have hzmem : z ∈ bfsQueue (childrenOf processes) fuel
              ((as' ++ bs) ++ childrenOf processes a.pid) :=
            List.mem_of_mem_head? (by rw [hT]; rfl)
          have := bfsQueue_lowerBound processes depth hC d fuel _ hqbound z hzmem
          have ha2 := ha.2
          omega
      · have has' : ∀ x ∈ as', x ∈ processes ∧ depth x = d :=
          fun x hx => has x (List.mem_cons_of_mem _ hx)
        have hbc : ∀ y ∈ bs ++ childrenOf processes a.pid,
            y ∈ processes ∧ depth y = d + 1 := by
          intro y hy
          rcases List.mem_append.mp hy with hy | hy
          · exact hbs y hy
          · have hdy := hC a ha.1 y hy
            exact ⟨childrenOf_mem hy, by omega⟩
        have := ih d as' (bs ++ childrenOf processes a.pid) has' hbc
        rw [List.append_assoc]
        exact this

/-- C4: for every process-table snapshot (with a depth assignment that is
consistent with the parent→children multimap, as in any genuine acyclic
snapshot), the descendants list of `getDescendantsOfProcess` is ordered by
non-decreasing depth; when the root pid is present the list starts with
the root row; and on the concrete snapshot with header `PPID PID COMM`
and rows `(1, 100, bash)`, `(100, 200, node)` the descendants of pid 100
are `[100, 200]` in that order. -/
theorem C4_descendants_bfs_depth_order (processes : List ProcessInfo) (pid : Int)
    (depth : ProcessInfo → Nat)
    (hC : ∀ x ∈ processes, ∀ c ∈ childrenOf processes x.pid, depth c = depth x + 1) :
    List.Chain' (fun u v : Nat => u ≤ v)
      ((getDescendantsOfProcess processes pid).map depth) ∧
    (∀ root, rootOf processes pid = some root →
      (getDescendantsOfProcess processes pid).head? = some root) ∧
    getDescendantsOfProcess
        (parsePsOutput "PPID PID COMM\n  1 100 bash\n100 200 node" none) 100
      = [⟨some 1, some 100, "bash", "bash"⟩, ⟨some 100, some 200, "node", "node"⟩] := by
  refine ⟨?_, ?_, by decide⟩
  · cases hroot : rootOf processes pid with
    | none => simp [getDescendantsOfProcess, hroot]
    | some root =>
      have hmem := rootOf_mem processes pid root hroot
      have h := bfsQueue_chain processes depth hC (processes.length + 1) (depth root)
        [root] []
        (by intro x hx; rw [List.mem_singleton] at hx; subst hx; exact ⟨hmem, rfl⟩)
        (by intro y hy; exact absurd hy (List.not_mem_nil y))
      rw [List.append_nil] at h
      simp only [getDescendantsOfProcess, hroot]
      exact h
  · intro root hroot
    unfold getDescendantsOfProcess
    rw [hroot]
    rfl

/-- C4 witness: the depth-ordering conjunct of the theorem applied to the
concrete two-row table of the example, with the evident depth function. -/
theorem C4_descendants_bfs_depth_order_witness :
    List.Chain' (fun u v : Nat => u ≤ v)
      ((getDescendantsOfProcess
          [⟨some 1, some 100, "bash", "bash"⟩, ⟨some 100, some 200, "node", "node"⟩]
          100).map
        (fun info => if info.pid == some (100 : Int) then 0 else 1)) ∧
    (getDescendantsOfProcess
        [⟨some 1, some 100, "bash", "bash"⟩, ⟨some 100, some 200, "node", "node"⟩]
        100).head? = some ⟨some 1, some 100, "bash", "bash"⟩ :=
  ⟨(C4_descendants_bfs_depth_order
      [⟨some 1, some 100, "bash", "bash"⟩, ⟨some 100, some 200, "node", "node"⟩]
      100 (fun info => if info.pid == some (100 : Int) then 0 else 1) (by decide)).1,
    (C4_descendants_bfs_depth_order
      [⟨some 1, some 100, "bash", "bash"⟩, ⟨some 100, some 200, "node", "node"⟩]
      100 (fun info => if info.pid == some (100 : Int) then 0 else 1) (by decide)).2.1
      ⟨some 1, some 100, "bash", "bash"⟩ (by decide)⟩

/-- C3: for every process tree root→A→B (with distinct pids and the
root's own parent outside the tree), Unix tree kill sends the termination
signal in reverse breadth-first order: B before A, and A before the root —
children are killed before their parents. -/
theorem C3_tree_kill_order (rootParent r a b : Int) (cr ca cb : String)
    (hra : r ≠ a) (hrb : r ≠ b) (hab : a ≠ b)
    (hpr : rootParent ≠ r) (hpa : rootParent ≠ a) (hpb : rootParent ≠ b) :
    killUnixProcessTree
        [⟨some rootParent, some r, cr, cr⟩, ⟨some r, some a, ca, ca⟩,
          ⟨some a, some b, cb, cb⟩] r
      = [some b, some a, some r] := by
  have hroot : rootOf [⟨some rootParent, some r, cr, cr⟩, ⟨some r, some a, ca, ca⟩, ⟨some a, some b, cb, cb⟩] r = some (⟨some rootParent, some r, cr, cr⟩ : ProcessInfo) := by
    simp [rootOf, Ne.symm hra, Ne.symm hrb]
  have hc0 : childrenOf [⟨some rootParent, some r, cr, cr⟩, ⟨some r, some a, ca, ca⟩, ⟨some a, some b, cb, cb⟩] (some r) = [(⟨some r, some a, ca, ca⟩ : ProcessInfo)] := by
    simp [childrenOf, hpr, Ne.symm hra]
  have hc1 : childrenOf [⟨some rootParent, some r, cr, cr⟩, ⟨some r, some a, ca, ca⟩, ⟨some a, some b, cb, cb⟩] (some a) = [(⟨some a, some b, cb, cb⟩ : ProcessInfo)] := by
    simp [childrenOf, hpa, hra]
  have hc2 : childrenOf [⟨some rootParent, some r, cr, cr⟩, ⟨some r, some a, ca, ca⟩, ⟨some a, some b, cb, cb⟩] (some b) = [] := by
    simp [childrenOf, hpb, hrb, hab]
  have hstep : ∀ (fuel : Nat) (x : ProcessInfo) (rest : List ProcessInfo),
      bfsQueue (childrenOf [⟨some rootParent, some r, cr, cr⟩, ⟨some r, some a, ca, ca⟩, ⟨some a, some b, cb, cb⟩]) (fuel + 1) (x :: rest)
        = x :: bfsQueue (childrenOf [⟨some rootParent, some r, cr, cr⟩, ⟨some r, some a, ca, ca⟩, ⟨some a, some b, cb, cb⟩]) fuel
            (rest ++ childrenOf [⟨some rootParent, some r, cr, cr⟩, ⟨some r, some a, ca, ca⟩, ⟨some a, some b, cb, cb⟩] x.pid) :=
    fun _ _ _ => rfl
  have hnil : ∀ fuel : Nat, bfsQueue (childrenOf [⟨some rootParent, some r, cr, cr⟩, ⟨some r, some a, ca, ca⟩, ⟨some a, some b, cb, cb⟩]) fuel [] = [] := by
    intro fuel
    cases fuel <;> rfl
  have hq : ∀ fuel : Nat,
      bfsQueue (childrenOf [⟨some rootParent, some r, cr, cr⟩, ⟨some r, some a, ca, ca⟩, ⟨some a, some b, cb, cb⟩]) (fuel + 3) [(⟨some rootParent, some r, cr, cr⟩ : ProcessInfo)]
        = [(⟨some rootParent, some r, cr, cr⟩ : ProcessInfo), (⟨some r, some a, ca, ca⟩ : ProcessInfo), (⟨some a, some b, cb, cb⟩ : ProcessInfo)] := by
    intro fuel
    show bfsQueue (childrenOf [⟨some rootParent, some r, cr, cr⟩, ⟨some r, some a, ca, ca⟩, ⟨some a, some b, cb, cb⟩]) ((fuel + 2) + 1) [(⟨some rootParent, some r, cr, cr⟩ : ProcessInfo)]
        = [(⟨some rootParent, some r, cr, cr⟩ : ProcessInfo), (⟨some r, some a, ca, ca⟩ : ProcessInfo), (⟨some a, some b, cb, cb⟩ : ProcessInfo)]
    rw [hstep]
    dsimp only
    rw [List.nil_append, hc0, hstep]
    dsimp only
    rw [List.nil_append, hc1, hstep]
    dsimp only
    rw [List.nil_append, hc2, hnil]
  have hdesc : getDescendantsOfProcess [⟨some rootParent, some r, cr, cr⟩, ⟨some r, some a, ca, ca⟩, ⟨some a, some b, cb, cb⟩] r
      = [(⟨some rootParent, some r, cr, cr⟩ : ProcessInfo), (⟨some r, some a, ca, ca⟩ : ProcessInfo), (⟨some a, some b, cb, cb⟩ : ProcessInfo)] := by
    unfold getDescendantsOfProcess
    rw [hroot]
    show bfsQueue (childrenOf [⟨some rootParent, some r, cr, cr⟩, ⟨some r, some a, ca, ca⟩, ⟨some a, some b, cb, cb⟩]) (1 + 3) [(⟨some rootParent, some r, cr, cr⟩ : ProcessInfo)]
        = [(⟨some rootParent, some r, cr, cr⟩ : ProcessInfo), (⟨some r, some a, ca, ca⟩ : ProcessInfo), (⟨some a, some b, cb, cb⟩ : ProcessInfo)]
    exact hq 1
  rw [killUnixProcessTree, hdesc]
  rfl

/-- C3 witness: the concrete tree 10→20→30 (root parent 1) is killed in
the order 30, 20, 10. -/
theorem C3_tree_kill_order_witness :
    killUnixProcessTree
        [⟨some 1, some 10, "root", "root"⟩, ⟨some 10, some 20, "a", "a"⟩,
          ⟨some 20, some 30, "b", "b"⟩] 10
      = [some 30, some 20, some 10] :=
  C3_tree_kill_order 1 10 20 30 "root" "a" "b" (by decide) (by decide) (by decide)
    (by decide) (by decide) (by decide)
